/-
Verification of the wio_tx_exporter transaction scraper/parser.

Shallow embedding of `src/wio_exporter/parser.py` and
`src/wio_exporter/scraper.py`.  Python strings are Lean `String`s
(operated on through `List Char`); Python `decimal.Decimal` values are
modelled by `PyDec` (sign, coefficient, scale), which covers exactly the
decimals this program constructs (`Decimal(s)` for a numeric string
`[+-]?digits[.digits*]`, so the exponent is always `≤ 0`); Python `None`
is `Option.none`.  The Appium driver is modelled as an environment
function giving the result of each successive element-discovery call,
and the `while` loop of `scrape_all_transactions` is iterated on fuel
(the loop may not terminate for adversarial environments, so `none`
marks fuel exhaustion, never a program result).
-/
import Mathlib

namespace Wio

/-! ### String utilities (Python `str` operations restricted to ASCII) -/

/-- Whitespace characters stripped by Python `str.strip()` (ASCII subset;
the inputs of this program are ASCII UI text). -/
def isPySpace (c : Char) : Bool :=
  c = ' ' || c = '\t' || c = '\n' || c = '\r' || c = '\x0b' || c = '\x0c'

/-- Python `str.strip()` on a character list. -/
def stripL (l : List Char) : List Char :=
  ((l.dropWhile isPySpace).reverse.dropWhile isPySpace).reverse

/-- Python `str.strip()`. -/
def pyStrip (s : String) : String :=
  String.mk (stripL s.toList)

/-- Does the pattern (first argument) occur at the head of the list? -/
def startsWithL : List Char → List Char → Bool
  | [], _ => true
  | _ :: _, [] => false
  | p :: ps, c :: cs => p == c && startsWithL ps cs

/-- Does the pattern occur anywhere in the list?  Python `pat in s`. -/
def containsSeq (pat : List Char) : List Char → Bool
  | [] => pat.isEmpty
  | c :: rest => startsWithL pat (c :: rest) || containsSeq pat rest

/-- Python `pat in s` on strings. -/
def strContainsStr (s pat : String) : Bool :=
  containsSeq pat.toList s.toList

/-- Python `s.split("\n")`: split on every newline, keeping empty parts. -/
def splitOnNl : List Char → List (List Char)
  | [] => [[]]
  | c :: rest =>
    let r := splitOnNl rest
    if c = '\n' then [] :: r
    else
      match r with
      | h :: t => (c :: h) :: t
      | [] => [[c]]

/-- Python `sep.join(parts)`. -/
def joinSep (sep : String) : List String → String
  | [] => ""
  | [s] => s
  | s :: rest => s ++ sep ++ joinSep sep rest

/-- ASCII decimal digit (Python `\d` restricted to ASCII). -/
def isDigitC (c : Char) : Bool :=
  '0' ≤ c && c ≤ '9'

/-- Python `re.search(r'\d', s)` succeeding, i.e. some character is a digit. -/
def hasDigit (s : String) : Bool :=
  s.toList.any isDigitC

/-- Numeric value of a digit string (most significant digit first). -/
def natOfDigits (l : List Char) : Nat :=
  l.foldl (fun n c => 10 * n + (c.toNat - 48)) 0

/-- Remove every occurrence of `"AED"`, scanning left to right:
Python `s.replace("AED", "")`. -/
def dropAED : List Char → List Char
  | 'A' :: 'E' :: 'D' :: rest => dropAED rest
  | c :: rest => c :: dropAED rest
  | [] => []

/-- Remove every comma: Python `s.replace(",", "")`. -/
def dropCommas (l : List Char) : List Char :=
  l.filter (fun c => c ≠ ',')

/-! ### Python `decimal.Decimal` (finite, exponent `≤ 0`)

Value represented: `(-1)^neg * coeff / 10^scale`; the Python exponent is
`-scale`.  The program only ever builds decimals by `Decimal(m)` for a
regex match `m` of `[+-]?\d+\.?\d*`, whose exponent is `-(number of
fraction digits) ≤ 0`, so this type covers every value that occurs. -/

structure PyDec where
  neg : Bool
  coeff : Nat
  scale : Nat
deriving DecidableEq, Repr

/-- Powers of ten (structural, so that concrete values reduce). -/
def pow10 : Nat → Nat
  | 0 => 1
  | n + 1 => 10 * pow10 n

/-- Signed coefficient of a `PyDec`: the value is `sval / 10^scale`. -/
def PyDec.sval (d : PyDec) : Int :=
  if d.neg then -(d.coeff : Int) else (d.coeff : Int)

/-- Numeric value of a `PyDec`; Python `Decimal` comparison operators
compare these values (the sign of a zero is ignored, as in Python). -/
def PyDec.toRat (d : PyDec) : ℚ :=
  (d.sval : ℚ) / (pow10 d.scale : ℚ)

/-- Numeric equality of two `PyDec`s (Python `Decimal.__eq__`), stated
over integers so that concrete instances are decidable by evaluation;
`PyDec.valEq_iff_toRat` identifies it with equality of the values. -/
def PyDec.valEq (a b : PyDec) : Prop :=
  a.sval * (pow10 b.scale : Int) = b.sval * (pow10 a.scale : Int)

instance (a b : PyDec) : Decidable (a.valEq b) := by
  unfold PyDec.valEq; exact inferInstance

/-- Python `Decimal(s)` for a numeric string `[+-]?digits[.digits*]`
(leading zeros of the coefficient are not retained, as in Python). -/
def decOfChars (l : List Char) : PyDec :=
  let signRest : Bool × List Char :=
    match l with
    | '-' :: cs => (true, cs)
    | '+' :: cs => (false, cs)
    | _ => (false, l)
  let intPart := signRest.2.takeWhile isDigitC
  let rest2 := signRest.2.dropWhile isDigitC
  let frac :=
    match rest2 with
    | '.' :: f => f
    | _ => []
  ⟨signRest.1, natOfDigits (intPart ++ frac), frac.length⟩

/-- Python `str(d)` for a finite `Decimal` with exponent `-scale ≤ 0`,
following the to-scientific-string conversion of the decimal
specification that CPython implements. -/
def decStr (d : PyDec) : String :=
  let ds := Nat.repr d.coeff
  let body :=
    if d.scale = 0 then ds
    else
      if (ds.length : Int) - 1 - (d.scale : Int) ≥ -6 then
        if d.scale < ds.length then
          String.mk (ds.toList.take (ds.length - d.scale)) ++ "." ++
            String.mk (ds.toList.drop (ds.length - d.scale))
        else
          "0." ++ String.mk (List.replicate (d.scale - ds.length) '0') ++ ds
      else
        (if ds.length = 1 then ds
         else String.mk (ds.toList.take 1) ++ "." ++ String.mk (ds.toList.drop 1))
          ++ "E-" ++ Nat.repr (d.scale + 1 - ds.length)
  if d.neg then "-" ++ body else body

/-! ### The regex `[+-]?\d+\.?\d*` of `TransactionParser._extract_amount` -/

/-- Match of `[+-]?\d+\.?\d*` anchored at the head of the list, greedy,
with the backtracking Python `re` performs: a lone sign with no digit
after it cannot match (dropping the optional sign leaves the sign
character itself, which is not a digit). -/
def matchNumAt (l : List Char) : Option (List Char) :=
  let signRest : List Char × List Char :=
    match l with
    | c :: cs => if c = '+' || c = '-' then ([c], cs) else ([], l)
    | [] => ([], [])
  match signRest.2 with
  | c :: _ =>
    if isDigitC c then
      let d1 := signRest.2.takeWhile isDigitC
      let r1 := signRest.2.dropWhile isDigitC
      match r1 with
      | '.' :: r2 => some (signRest.1 ++ d1 ++ ['.'] ++ r2.takeWhile isDigitC)
      | _ => some (signRest.1 ++ d1)
    else none
  | [] => none

/-- Python `re.search(r'[+-]?\d+\.?\d*', s)`: leftmost match. -/
def searchNum : List Char → Option (List Char)
  | [] => none
  | c :: rest =>
    match matchNumAt (c :: rest) with
    | some m => some m
    | none => searchNum rest

/-! ### `parser.py` -/

/-- The `Transaction` dataclass of `parser.py`. -/
structure Transaction where
  date : String
  description : String
  amount : PyDec
  currency : String
  category : Option String := none
  foreign_amount : Option String := none
deriving DecidableEq, Repr

/-- Python dataclass `__eq__`: the generated method compares the tuple of
all six fields in declaration order (`Decimal` fields numerically). -/
def Transaction.pyEq (a b : Transaction) : Prop :=
  a.date = b.date ∧ a.description = b.description ∧
    a.amount.valEq b.amount ∧ a.currency = b.currency ∧
    a.category = b.category ∧ a.foreign_amount = b.foreign_amount

instance (a b : Transaction) : Decidable (a.pyEq b) := by
  unfold Transaction.pyEq; exact inferInstance

/-- The tuple hashed by `Transaction.__hash__`:
`(self.date, self.description, str(self.amount), self.currency)`. -/
def Transaction.hashKey (t : Transaction) : String × String × String × String :=
  (t.date, t.description, decStr t.amount, t.currency)

/-- Python `Transaction.is_spending()`: `self.amount < 0`, a numeric
comparison of the decimal with zero, i.e. `sval < 0` (the denominator
`10^scale` is positive); `Transaction.isSpending_iff` identifies the
test with `toRat < 0`. -/
def Transaction.isSpending (t : Transaction) : Bool :=
  decide (t.amount.sval < 0)

/-- Python `TransactionParser._extract_amount`.  The `try`/`except` around
`Decimal(match.group())` is unreachable: every match of the regex is a
valid numeric string, so `decOfChars` is applied directly. -/
def extract_amount (amount_str : String) : Option PyDec :=
  let cleaned := stripL (dropCommas (dropAED amount_str.toList))
  match searchNum cleaned with
  | some m => some (decOfChars m)
  | none => none

/-- The non-empty stripped lines of the element text:
`[line.strip() for line in element_text.split("\n") if line.strip()]`. -/
def cleanLines (element_text : String) : List String :=
  ((splitOnNl element_text.toList).map (fun l => String.mk (stripL l))).filter
    (fun l => l ≠ "")

/-- The `for i, line in enumerate(lines)` scan of `parse_transaction`:
find the first line containing `"AED"`; return the lines before it
(`description_lines = lines[:i]`), the line itself, and — when the next
line contains `"THB"` or `"USD"` — that next line (`foreign_amount`).
Returns `none` when no line contains `"AED"` (then `aed_amount` stays
`None` in the Python code). -/
def findAmountLine : List String → Option (List String × String × Option String)
  | [] => none
  | l :: rest =>
    if strContainsStr l "AED" then
      let foreign :=
        match rest with
        | nxt :: _ =>
          if strContainsStr nxt "THB" || strContainsStr nxt "USD" then some nxt
          else none
        | [] => none
      some ([], l, foreign)
    else
      match findAmountLine rest with
      | some (dl, al, f) => some (l :: dl, al, f)
      | none => none

/-- The description/category block of `parse_transaction` (lines before
the primary amount line).  First line is the description (`"Unknown"`
when the block is empty); a second line that is non-empty and has no
digit becomes the category; with a category and more than two block
lines the description is rebuilt as `" ".join(description_lines[:-1])`
(the two-line case keeps the first line: the `pass` branch). -/
def descCategory : List String → String × Option String
  | [] => ("Unknown", none)
  | [d] => (d, none)
  | d :: p :: rest =>
    if p ≠ "" && !hasDigit p then
      if rest = [] then (d, some p)
      else (joinSep " " ((d :: p :: rest).dropLast), some p)
    else (d, none)

/-- Python `TransactionParser.parse_transaction(element_text)` with the
parser's `current_date` passed explicitly. -/
def parse_transaction (current_date : String) (element_text : String) :
    Option Transaction :=
  if element_text = "" || !strContainsStr element_text "AED" then none
  else
    if (cleanLines element_text).length < 2 then none
    else
      match findAmountLine (cleanLines element_text) with
      | none => none
      | some (description_lines, amount_line, foreign_amount) =>
        match extract_amount amount_line with
        | none => none
        | some aed_amount =>
          let dc := descCategory description_lines
          some { date := current_date, description := dc.1,
                 amount := aed_amount, currency := "AED",
                 category := dc.2, foreign_amount := foreign_amount }

/-! ### `scraper.py`: visibility filter -/

/-- A UI element as read during one discovery pass
(`_get_visible_transaction_elements`): the attributes the code inspects,
plus `err`, modelling the per-element `try`/`except` (an element whose
attribute reads raise is skipped without aborting the pass). -/
structure RawElem where
  visible : Option String
  value : Option String
  label : Option String
  x : Int
  y : Int
  height : Int
  err : Bool
deriving DecidableEq, Repr

/-- Python `a or b` for an optional string `a` with default `b`
(the first operand wins when it is a non-empty string). -/
def pyOrStr : Option String → String → String
  | some v, d => if v = "" then d else v
  | none, d => d

/-- Python `elem.get_attribute("value") or elem.get_attribute("label") or ""`. -/
def elemText (e : RawElem) : String :=
  pyOrStr e.value (pyOrStr e.label "")

/-- One iteration of the element loop of
`_get_visible_transaction_elements`: the chain of `continue` checks,
appending the element to the accumulator when every check passes. -/
def visStep (screenW screenH : Int) (acc : List RawElem) (e : RawElem) :
    List RawElem :=
  if e.err then acc
  else if !(e.visible == some "true") then acc
  else if !strContainsStr (elemText e) "AED" then acc
  else if e.y ≤ 0 || e.height ≤ 0 then acc
  else if e.x < 0 || e.x ≥ screenW || e.y ≥ screenH then acc
  else acc ++ [e]

/-- The filtering loop of `_get_visible_transaction_elements`, given the
window size (`screen_width`, `screen_height`) and the elements returned
by the tree query, in order. -/
def get_visible_transaction_elements (screenW screenH : Int)
    (elems : List RawElem) : List RawElem :=
  elems.foldl (visStep screenW screenH) []

/-- The visibility predicate, stated as in the design: the element read
without error, is marked visible, its text contains the currency marker,
its `y` and `height` are strictly positive, and its position lies inside
`[0, screen_width) × (-∞, screen_height)`. -/
def visPass (screenW screenH : Int) (e : RawElem) : Bool :=
  !e.err && (e.visible == some "true") && strContainsStr (elemText e) "AED" &&
    (0 < e.y && 0 < e.height) && (0 ≤ e.x && e.x < screenW && e.y < screenH)

/-! ### `scraper.py`: detail extraction and the scraping loop -/

/-- What the transaction detail page yields for one element: the raw
results of the five `_extract_field_value` calls. -/
structure Details where
  reference_number : Option String
  date : Option String
  amount : Option String
  merchant : Option String
  category : Option String
deriving DecidableEq, Repr

/-- One clickable transaction element, abstracted to the data the scraper
reads from it: its preview text (value-or-label) and, unless the click or
the reads raise (`details = none`, modelling the `except` branch of
`_extract_transaction_details`), its detail page. -/
structure Elem where
  preview : String
  details : Option Details
deriving DecidableEq, Repr

/-- The dictionary built by `_extract_transaction_details`.  The key
`ref_number` is present only when `_extract_field_value("Reference
number")` returned a truthy (non-empty) string. -/
structure TxnData where
  preview_text : String
  ref_number : Option String
  date : Option String
  amount : Option String
  merchant : Option String
  category : Option String
deriving DecidableEq, Repr

/-- Python `TransactionScraper._extract_transaction_details`. -/
def extract_transaction_details (e : Elem) : Option TxnData :=
  match e.details with
  | none => none
  | some d =>
    some { preview_text := e.preview
           ref_number :=
             match d.reference_number with
             | some r => if r = "" then none else some r
             | none => none
           date := d.date, amount := d.amount,
           merchant := d.merchant, category := d.category }

/-- Python `TransactionScraper._parse_transaction`: parse the preview text
(the scraper's `TransactionParser` is constructed with `current_date ""`
and never updated), then override the date with the detail-page date when
that is a truthy string. -/
def scraper_parse_transaction (td : TxnData) : Option Transaction :=
  if td.preview_text = "" then none
  else
    match parse_transaction "" td.preview_text with
    | none => none
    | some txn =>
      match td.date with
      | some d => if d ≠ "" then some { txn with date := d } else some txn
      | none => some txn

/-- The reference number the loop obtains for an element, if any. -/
def refOf (e : Elem) : Option String :=
  match extract_transaction_details e with
  | some td => td.ref_number
  | none => none

/-- State of `scrape_all_transactions` while the inner `for` loop runs.
`calls` counts the discovery calls made so far (the index into the
environment); `seen` is `self.seen_references` (a Python set, modelled as
a duplicate-free list in insertion order); `newCount` is the loop-local
`new_count`; `no_new_count` is carried because the reference-overlap
guard assigns it (`no_new_count = max_no_new`) before breaking. -/
structure InnerSt where
  calls : Nat
  transactions : List Transaction
  seen : List String
  last_processed_ref : Option String
  newCount : Nat
  no_new_count : Nat
deriving DecidableEq, Repr

/-- The inner `for i in range(len(visible_txns))` loop of
`scrape_all_transactions`, processing indices `i, i+1, …` with `r`
indices remaining.  Each iteration re-fetches the visible elements
(one discovery call), breaks when the index is out of range, and
otherwise processes element `i`: force exit (set `no_new_count := 3` and
stop) when it is the last element and its reference equals
`last_processed_ref`; skip elements without a reference; skip references
already seen; otherwise record the reference and append the parsed
transaction when it is a spending; finally record the last element's
reference as `last_processed_ref`. -/
def innerLoop (env : Nat → List Elem) : Nat → Nat → InnerSt → InnerSt
  | 0, _, st => st
  | r + 1, i, st =>
    let batch := env st.calls
    let st1 : InnerSt := { st with calls := st.calls + 1 }
    if h : i < batch.length then
      let e := batch.get ⟨i, h⟩
      match extract_transaction_details e with
      | none => innerLoop env r (i + 1) st1
      | some td =>
        match td.ref_number with
        | none => innerLoop env r (i + 1) st1
        | some ref =>
          if i = batch.length - 1 ∧ st1.last_processed_ref = some ref then
            { st1 with no_new_count := 3 }
          else
            let st2 :=
              if ref ∈ st1.seen then st1
              else
                let stA : InnerSt := { st1 with seen := st1.seen ++ [ref] }
                match scraper_parse_transaction td with
                | some txn =>
                  if txn.isSpending then
                    { stA with transactions := stA.transactions ++ [txn],
                               newCount := stA.newCount + 1 }
                  else stA
                | none => stA
            let st3 :=
              if i = batch.length - 1 then
                { st2 with last_processed_ref := some ref }
              else st2
            innerLoop env r (i + 1) st3
    else st1

/-- State of the scraper across batches. -/
structure ScraperSt where
  calls : Nat
  transactions : List Transaction
  seen : List String
  last_processed_ref : Option String
  no_new_count : Nat
deriving DecidableEq, Repr

/-- The `for retry in range(3)` discovery-retry loop: up to three
discovery calls, stopping at the first non-empty batch; returns the last
batch obtained and the updated call count. -/
def retryDiscovery (env : Nat → List Elem) (calls : Nat) :
    List Elem × Nat :=
  let b0 := env calls
  if b0 ≠ [] then (b0, calls + 1)
  else
    let b1 := env (calls + 1)
    if b1 ≠ [] then (b1, calls + 2)
    else (env (calls + 2), calls + 3)

/-- The `while no_new_count < max_no_new` loop of
`scrape_all_transactions`, iterated on fuel (`none` = fuel exhausted,
never a program outcome).  A batch empty after the retries breaks the
loop; otherwise the inner loop runs over the batch's indices, and
afterwards `no_new_count` is incremented when the batch produced nothing
new, else reset to zero.  The scroll gesture performed when the loop will
continue does not touch this state and is not modelled. -/
def outerLoop (env : Nat → List Elem) : Nat → ScraperSt → Option ScraperSt
  | 0, _ => none
  | fuel + 1, st =>
    if st.no_new_count < 3 then
      let disc := retryDiscovery env st.calls
      if disc.1 = [] then some { st with calls := disc.2 }
      else
        let ist := innerLoop env disc.1.length 0
          ⟨disc.2, st.transactions, st.seen, st.last_processed_ref, 0,
            st.no_new_count⟩
        let nn := if ist.newCount = 0 then ist.no_new_count + 1 else 0
        outerLoop env fuel
          ⟨ist.calls, ist.transactions, ist.seen, ist.last_processed_ref, nn⟩
    else some st

/-- Python `TransactionScraper.scrape_all_transactions`, starting from a
freshly constructed (or `reset`) scraper: empty result, empty seen set,
no last reference, `no_new_count = 0`. -/
def scrape_all_transactions (env : Nat → List Elem) (fuel : Nat) :
    Option (List Transaction) :=
  (outerLoop env fuel ⟨0, [], [], none, 0⟩).map (fun st => st.transactions)

/-! ### Spec-side description of one batch's novel spending transactions -/

/-- The novel spending transactions of a batch, as the design describes
them: walk the batch in order, skip elements without a reference and
references already seen, record each new reference, and keep the parsed
transaction when it is a spending. -/
def novelScan : List Elem → List String → List Transaction
  | [], _ => []
  | e :: rest, seen =>
    match extract_transaction_details e with
    | none => novelScan rest seen
    | some td =>
      match td.ref_number with
      | none => novelScan rest seen
      | some ref =>
        if ref ∈ seen then novelScan rest seen
        else
          match scraper_parse_transaction td with
          | some txn =>
            if txn.isSpending then txn :: novelScan rest (seen ++ [ref])
            else novelScan rest (seen ++ [ref])
          | none => novelScan rest (seen ++ [ref])

/-- The novel spending transactions of one batch seen in isolation. -/
def novelSpendingOf (batch : List Elem) : List Transaction :=
  novelScan batch []

/-- The references a pass over the batch adds to a seen set. -/
def newRefs : List Elem → List String → List String
  | [], _ => []
  | e :: rest, seen =>
    match refOf e with
    | some ref =>
      if ref ∈ seen then newRefs rest seen
      else ref :: newRefs rest (seen ++ [ref])
    | none => newRefs rest seen

/-- The value of `last_processed_ref` after a pass over the batch: the
last element's reference when it has one, otherwise unchanged. -/
def lastRefOf (batch : List Elem) (cur : Option String) : Option String :=
  match batch.getLast? with
  | some e =>
    match refOf e with
    | some r => some r
    | none => cur
  | none => cur

/-! ### Auxiliary definitions for the statements -/

/-- The primary amount of the element text: the amount extracted from the
first line containing the currency marker (`none` when there is no such
line or the extraction fails). -/
def primaryAmount (element_text : String) : Option PyDec :=
  match findAmountLine (cleanLines element_text) with
  | some (_, amount_line, _) => extract_amount amount_line
  | none => none

/-- The description/category heuristic as the design states it: the first
block line is the description; a second block line with no digit
characters becomes the category; with more than two block lines and a
detected category the description is rebuilt by joining all block lines
except the last, otherwise the first line stands alone. -/
def specDescCategory (dl : List String) : String × Option String :=
  let cat : Option String :=
    match dl with
    | _ :: p :: _ => if !hasDigit p then some p else none
    | _ => none
  let desc :=
    if 2 < dl.length ∧ cat.isSome then joinSep " " dl.dropLast
    else dl.headD "Unknown"
  (desc, cat)

/-- Sample element used by witnesses: a spending with a reference. -/
def sampleElem : Elem :=
  ⟨"Bowlito\nRestaurant\n-47.24 AED",
    some ⟨some "REF1", some "SUN, 5 OCTOBER", none, none, none⟩⟩

/-- The transaction `sampleElem` parses to inside the scraper. -/
def sampleTxn : Transaction :=
  ⟨"SUN, 5 OCTOBER", "Bowlito", ⟨true, 4724, 2⟩, "AED", some "Restaurant",
    none⟩

/-- Sample element without a reference number on its detail page. -/
def sampleNoRef : Elem :=
  ⟨"Cafe\n-12.5 AED", some ⟨none, none, none, none, none⟩⟩

/-! ### Basic lemmas about the decimal model -/

lemma pow10_eq (n : Nat) : pow10 n = 10 ^ n := by
  induction n with
  | zero => rfl
  | succ n ih => simp [pow10, ih, pow_succ]; ring

lemma pow10_pos (n : Nat) : 0 < pow10 n := by
  rw [pow10_eq]; positivity

lemma pow10_cast_pos (n : Nat) : (0 : ℚ) < (pow10 n : ℚ) := by
  exact_mod_cast pow10_pos n

/-- Numeric equality of decimals is equality of their rational values. -/
lemma PyDec.valEq_iff_toRat (a b : PyDec) : a.valEq b ↔ a.toRat = b.toRat := by
  unfold PyDec.valEq PyDec.toRat
  rw [div_eq_div_iff (ne_of_gt (pow10_cast_pos a.scale))
    (ne_of_gt (pow10_cast_pos b.scale))]
  constructor
  · intro h; exact_mod_cast h
  · intro h; exact_mod_cast h

/-- The spending test is negativity of the rational value. -/
lemma Transaction.isSpending_iff (t : Transaction) :
    t.isSpending = true ↔ t.amount.toRat < 0 := by
  unfold Transaction.isSpending PyDec.toRat
  rw [decide_eq_true_eq, div_neg_iff]
  constructor
  · intro h
    exact Or.inr ⟨by exact_mod_cast h, pow10_cast_pos t.amount.scale⟩
  · rintro (⟨_, hd⟩ | ⟨hn, _⟩)
    · exact absurd (pow10_cast_pos t.amount.scale) (not_lt.mpr hd.le)
    · exact_mod_cast hn

/-! ### Claim theorems -/

/-- C3.  The amount extractor strips the currency token and comma
separators and takes the first `[+-]?\d+\.?\d*` substring as an exact
decimal: `"-47.24 AED"` gives `-47.24`, `"-151,000.00 AED"` gives
`-151000.00`, `"12.5 AED"` gives `12.5` (unsigned means positive), and
`"AED"` yields no value (no decimal-number substring exists). -/
theorem c3_extract_amount :
    extract_amount "-47.24 AED" = some ⟨true, 4724, 2⟩ ∧
    PyDec.toRat ⟨true, 4724, 2⟩ = -4724 / 100 ∧
    extract_amount "-151,000.00 AED" = some ⟨true, 15100000, 2⟩ ∧
    PyDec.toRat ⟨true, 15100000, 2⟩ = -151000 ∧
    extract_amount "12.5 AED" = some ⟨false, 125, 1⟩ ∧
    PyDec.toRat ⟨false, 125, 1⟩ = 125 / 10 ∧
    extract_amount "AED" = none :=
  ⟨by decide, by norm_num [PyDec.toRat, PyDec.sval, pow10],
   by decide, by norm_num [PyDec.toRat, PyDec.sval, pow10],
   by decide, by norm_num [PyDec.toRat, PyDec.sval, pow10],
   by decide⟩

/-- C4.  The record parser takes the first line containing the currency
marker as the primary amount line, the lines before it as the
description block, and an immediately following secondary-currency line
verbatim as `foreign_amount`: the two documented inputs parse to exactly
the documented records (for any ambient date header `d`). -/
theorem c4_parse_examples (d : String) :
    parse_transaction d "Bowlito\nRestaurant\n-47.24 AED\n-415.00 THB" =
      some ⟨d, "Bowlito", ⟨true, 4724, 2⟩, "AED", some "Restaurant",
        some "-415.00 THB"⟩ ∧
    parse_transaction d "Illia Pivtoraiko to Temp\n-151,000.00 AED" =
      some ⟨d, "Illia Pivtoraiko to Temp", ⟨true, 15100000, 2⟩, "AED", none,
        none⟩ :=
  ⟨rfl, rfl⟩

/-- C5.  The record parser returns `none` whenever the input lacks the
currency marker, has fewer than two non-empty trimmed lines, or the
primary amount cannot be extracted; no partial record is produced. -/
theorem c5_parse_rejects (d s : String)
    (h : strContainsStr s "AED" = false ∨ (cleanLines s).length < 2 ∨
      primaryAmount s = none) :
    parse_transaction d s = none := by
  unfold parse_transaction
  rcases h with h | h | h
  · simp [h]
  · split
    · rfl
    · simp [h]
  · split
    · rfl
    · split
      · rfl
      · unfold primaryAmount at h
        split
        · rfl
        · next dl al fa heq =>
          rw [heq] at h
          simp at h
          simp [h]

/-- Witness for C5 at a concrete rejected input. -/
theorem c5_parse_rejects_witness :
    parse_transaction "" "hello\nworld" = none :=
  c5_parse_rejects "" "hello\nworld" (Or.inl (by decide))

/-- C6.  On description blocks of non-empty lines (the only blocks the
record parser produces), the code's description/category computation
agrees with the documented heuristic: first line is the description, a
digit-free second line becomes the category, and with more than two
lines and a category the description is the join of all but the last
block line. -/
theorem c6_desc_category (dl : List String) (hne : ∀ l ∈ dl, l ≠ "") :
    descCategory dl = specDescCategory dl := by
  match dl with
  | [] => rfl
  | [d] => rfl
  | d :: p :: rest =>
    have hp : p ≠ "" := hne p (by simp)
    by_cases hd : hasDigit p
    · simp [descCategory, specDescCategory, hp, hd]
    · by_cases hr : rest = []
      · subst hr; simp [descCategory, specDescCategory, hp, hd]
      · have hlen : 2 < (d :: p :: rest).length := by
          have := List.length_pos.mpr hr
          simp [List.length_cons]
          omega
        simp [descCategory, specDescCategory, hp, hd, hr, hlen,
          List.length_pos.mpr hr]

/-- Witness for C6 on the Bowlito description block. -/
theorem c6_desc_category_witness :
    descCategory ["Bowlito", "Restaurant"] =
      specDescCategory ["Bowlito", "Restaurant"] :=
  c6_desc_category ["Bowlito", "Restaurant"] (by decide)

lemma visStep_eq_filterStep (screenW screenH : Int) (acc : List RawElem)
    (e : RawElem) :
    visStep screenW screenH acc e =
      if visPass screenW screenH e then acc ++ [e] else acc := by
  unfold visStep visPass
  rcases e with ⟨v, val, lab, x, y, hgt, err⟩
  cases err
  · simp only [Bool.false_eq_true, if_false]
    by_cases h1 : v = some "true" <;>
      by_cases h2 :
        strContainsStr (elemText ⟨v, val, lab, x, y, hgt, false⟩) "AED" <;>
        simp [h1, h2] <;> split_ifs <;> simp_all <;> omega
  · simp

lemma visFoldAux (screenW screenH : Int) :
    ∀ (es : List RawElem) (acc : List RawElem),
      es.foldl (visStep screenW screenH) acc =
        acc ++ es.filter (visPass screenW screenH) := by
  intro es
  induction es with
  | nil => simp
  | cons e rest ih =>
    intro acc
    rw [List.foldl_cons, visStep_eq_filterStep, List.filter_cons]
    by_cases hp : visPass screenW screenH e
    · simp [hp, ih]
    · simp [hp, ih]

/-- C7.  The visibility filter returns exactly the input-order
subsequence of elements passing every check, and each individual check
(visible attribute, currency marker in the text, positive `y` and
`height`, position inside the viewport) excludes an element on its
own. -/
theorem c7_visibility_filter (screenW screenH : Int) (es : List RawElem) :
    get_visible_transaction_elements screenW screenH es =
      es.filter (visPass screenW screenH) ∧
    (∀ e : RawElem, ¬e.visible = some "true" →
      visPass screenW screenH e = false) ∧
    (∀ e : RawElem, strContainsStr (elemText e) "AED" = false →
      visPass screenW screenH e = false) ∧
    (∀ e : RawElem, e.y ≤ 0 ∨ e.height ≤ 0 →
      visPass screenW screenH e = false) ∧
    (∀ e : RawElem, e.x < 0 ∨ e.x ≥ screenW ∨ e.y ≥ screenH →
      visPass screenW screenH e = false) := by
  refine ⟨by simpa using visFoldAux screenW screenH es [], ?_, ?_, ?_, ?_⟩
  · intro e h; simp [visPass, h]
  · intro e h; simp [visPass, h]
  · intro e h
    rcases h with h | h <;> (simp [visPass]; omega)
  · intro e h
    rcases h with h | h | h <;> (simp [visPass]; omega)

/-- Witness for C7: a concrete invisible element is excluded. -/
theorem c7_visibility_filter_witness :
    get_visible_transaction_elements 390 844
        [⟨some "false", some "x AED", none, 5, 5, 5, false⟩] =
      List.filter (visPass 390 844)
        [⟨some "false", some "x AED", none, 5, 5, 5, false⟩] ∧
    visPass 390 844 ⟨some "false", some "x AED", none, 5, 5, 5, false⟩ =
      false := by
  refine ⟨(c7_visibility_filter 390 844 _).1, ?_⟩
  exact (c7_visibility_filter 390 844 []).2.1 _ (by decide)

/-! ### Invariants of the scraping loop -/

lemma innerLoop_spending (env : Nat → List Elem) :
    ∀ (r i : Nat) (st : InnerSt),
      (∀ t ∈ st.transactions, t.isSpending = true) →
      ∀ t ∈ (innerLoop env r i st).transactions, t.isSpending = true := by
  intro r
  induction r with
  | zero => intro i st h; simpa [innerLoop] using h
  | succ n ih =>
    intro i st h
    simp only [innerLoop]
    split
    · split
      · exact ih _ _ h
      · split
        · exact ih _ _ h
        · split
          · simpa using h
          · apply ih
            split
            · split
              · simpa using h
              · split
                · split
                  · intro t ht
                    simp only [List.mem_append, List.mem_singleton] at ht
                    rcases ht with ht | ht
                    · exact h t ht
                    · subst ht; assumption
                  · simpa using h
                · simpa using h
            · split
              · simpa using h
              · split
                · split
                  · intro t ht
                    simp only [List.mem_append, List.mem_singleton] at ht
                    rcases ht with ht | ht
                    · exact h t ht
                    · subst ht; assumption
                  · simpa using h
                · simpa using h
    · simpa using h

lemma innerLoop_calls_le (env : Nat → List Elem) :
    ∀ (r i : Nat) (st : InnerSt), st.calls ≤ (innerLoop env r i st).calls := by
  intro r
  induction r with
  | zero => intro i st; simp [innerLoop]
  | succ n ih =>
    intro i st
    simp only [innerLoop]
    repeat' split
    all_goals
      first
      | exact Nat.le_succ st.calls
      | (refine Nat.le_trans ?_ (ih _ _); simp)

lemma innerLoop_seen_grows (env : Nat → List Elem) :
    ∀ (r i : Nat) (st : InnerSt), st.seen <+: (innerLoop env r i st).seen := by
  intro r
  induction r with
  | zero => intro i st; simp [innerLoop]
  | succ n ih =>
    intro i st
    simp only [innerLoop]
    repeat' split
    all_goals
      first
      | exact List.prefix_rfl
      | (refine List.IsPrefix.trans ?_ (ih _ _); simp [List.prefix_append])

lemma innerLoop_growth (env : Nat → List Elem) :
    ∀ (r i : Nat) (st : InnerSt),
      ((innerLoop env r i st).transactions.length : Int) -
          (innerLoop env r i st).seen.length ≤
        (st.transactions.length : Int) - st.seen.length := by
  intro r
  induction r with
  | zero => intro i st; simp [innerLoop]
  | succ n ih =>
    intro i st
    simp only [innerLoop]
    repeat' split
    all_goals
      first
      | (simp; done)
      | (refine le_trans (ih _ _) ?_; simp; try omega)

lemma innerLoop_seen_src (env : Nat → List Elem) :
    ∀ (r i : Nat) (st stR : InnerSt) (x : String),
      innerLoop env r i st = stR → x ∈ stR.seen →
      x ∈ st.seen ∨ ∃ k e, st.calls ≤ k ∧ k < stR.calls ∧ e ∈ env k ∧
        refOf e = some x := by
  intro r
  induction r with
  | zero =>
    intro i st stR x heq hx
    simp only [innerLoop] at heq
    subst heq
    exact Or.inl hx
  | succ n ih =>
    intro i st stR x heq hx
    simp only [innerLoop] at heq
    split at heq
    case isFalse =>
      subst heq
      exact Or.inl hx
    case isTrue hlt =>
      split at heq
      case h_1 =>
        exact (ih _ _ _ _ heq hx).elim (fun h => Or.inl h)
          (fun ⟨k, e, hk1, hk2, he, hr⟩ =>
            Or.inr ⟨k, e, by simp at hk1; omega, hk2, he, hr⟩)
      case h_2 td hext =>
        split at heq
        case h_1 =>
          exact (ih _ _ _ _ heq hx).elim (fun h => Or.inl h)
            (fun ⟨k, e, hk1, hk2, he, hr⟩ =>
              Or.inr ⟨k, e, by simp at hk1; omega, hk2, he, hr⟩)
        case h_2 ref htd =>
          have hrefe : refOf ((env st.calls).get ⟨i, hlt⟩) = some ref := by
            simp only [refOf, hext, htd]
          split at heq
          case isTrue =>
            subst heq
            exact Or.inl hx
          case isFalse =>
            have hcalls0 : st.calls < stR.calls := by
              rw [← heq]
              refine Nat.lt_of_lt_of_le ?_ (innerLoop_calls_le env n (i + 1) _)
              repeat' split
              all_goals (simp; try omega)
            repeat' split at heq
            all_goals
              refine (ih _ _ _ _ heq hx).elim ?_
                (fun ⟨k, e, hk1, hk2, he, hr⟩ =>
                  Or.inr ⟨k, e, by simp at hk1; omega, hk2, he, hr⟩)
            all_goals
              first
              | exact fun h => Or.inl (by simpa using h)
              | exact fun h => (by simpa using h : x ∈ st.seen ∨ x = ref).elim
                  (fun h1 => Or.inl h1)
                  (fun h1 => by
                    subst h1
                    exact Or.inr ⟨st.calls, (env st.calls).get ⟨i, hlt⟩,
                      le_refl _, hcalls0, List.get_mem _ _ _, hrefe⟩)

lemma innerLoop_noref_step (env : Nat → List Elem) (i : Nat) (st : InnerSt)
    (e : Elem) (hget : (env st.calls).get? i = some e)
    (href : refOf e = none) :
    innerLoop env 1 i st = { st with calls := st.calls + 1 } := by
  obtain ⟨hlt, hgete⟩ := List.get?_eq_some.mp hget
  simp only [innerLoop]
  rw [dif_pos hlt, hgete]
  cases hext : extract_transaction_details e with
  | none => simp [innerLoop]
  | some td =>
    have htd : td.ref_number = none := by simpa [refOf, hext] using href
    simp [htd, innerLoop]

lemma innerLoop_dupe_step (env : Nat → List Elem) (i : Nat) (st : InnerSt)
    (e : Elem) (ref : String) (hget : (env st.calls).get? i = some e)
    (href : refOf e = some ref) (hseen : ref ∈ st.seen) :
    (innerLoop env 1 i st).transactions = st.transactions ∧
    (innerLoop env 1 i st).seen = st.seen ∧
    (innerLoop env 1 i st).newCount = st.newCount := by
  obtain ⟨hlt, hgete⟩ := List.get?_eq_some.mp hget
  cases hext : extract_transaction_details e with
  | none => simp [refOf, hext] at href
  | some td =>
    have htd : td.ref_number = some ref := by simpa [refOf, hext] using href
    simp only [innerLoop]
    rw [dif_pos hlt, hgete]
    simp only [hext, htd]
    split
    · simp
    · repeat' split
      all_goals simp [innerLoop]
lemma retryDiscovery_calls_le (env : Nat → List Elem) (calls : Nat) :
    calls ≤ (retryDiscovery env calls).2 := by
  unfold retryDiscovery
  by_cases h0 : env calls = []
  · by_cases h1 : env (calls + 1) = []
    · simp [h0, h1]
    · simp [h0, h1]
  · simp [h0]

lemma outerLoop_calls_le (env : Nat → List Elem) :
    ∀ (fuel : Nat) (st st' : ScraperSt),
      outerLoop env fuel st = some st' → st.calls ≤ st'.calls := by
  intro fuel
  induction fuel with
  | zero => intro st st' h; simp [outerLoop] at h
  | succ n ih =>
    intro st st' h
    simp only [outerLoop] at h
    split at h
    · split at h
      · obtain rfl := Option.some.inj h
        simpa using retryDiscovery_calls_le env st.calls
      · exact le_trans (retryDiscovery_calls_le env st.calls)
          (le_trans (innerLoop_calls_le env _ 0
            ⟨(retryDiscovery env st.calls).2, st.transactions, st.seen,
              st.last_processed_ref, 0, st.no_new_count⟩) (ih _ _ h))
    · obtain rfl := Option.some.inj h
      exact le_refl _

lemma outerLoop_seen_grows (env : Nat → List Elem) :
    ∀ (fuel : Nat) (st st' : ScraperSt),
      outerLoop env fuel st = some st' → st.seen <+: st'.seen := by
  intro fuel
  induction fuel with
  | zero => intro st st' h; simp [outerLoop] at h
  | succ n ih =>
    intro st st' h
    simp only [outerLoop] at h
    split at h
    · split at h
      · obtain rfl := Option.some.inj h
        exact List.prefix_rfl
      · exact List.IsPrefix.trans
          (innerLoop_seen_grows env _ 0
            ⟨(retryDiscovery env st.calls).2, st.transactions, st.seen,
              st.last_processed_ref, 0, st.no_new_count⟩) (ih _ _ h)
    · obtain rfl := Option.some.inj h
      exact List.prefix_rfl

lemma outerLoop_seen_src (env : Nat → List Elem) :
    ∀ (fuel : Nat) (st st' : ScraperSt) (x : String),
      outerLoop env fuel st = some st' → x ∈ st'.seen →
      x ∈ st.seen ∨ ∃ k e, st.calls ≤ k ∧ k < st'.calls ∧ e ∈ env k ∧
        refOf e = some x := by
  intro fuel
  induction fuel with
  | zero => intro st st' x h; simp [outerLoop] at h
  | succ n ih =>
    intro st st' x h hx
    simp only [outerLoop] at h
    split at h
    · split at h
      · obtain rfl := Option.some.inj h
        exact Or.inl hx
      · have hout := outerLoop_calls_le env n _ _ h
        rcases ih _ _ _ h hx with hmem | ⟨k, e, hk1, hk2, he, hr⟩
        · rcases innerLoop_seen_src env
              (retryDiscovery env st.calls).1.length 0
              ⟨(retryDiscovery env st.calls).2, st.transactions, st.seen,
                st.last_processed_ref, 0, st.no_new_count⟩ _ x rfl hmem with
            hmem2 | ⟨k, e, hk1, hk2, he, hr⟩
          · exact Or.inl hmem2
          · have t1 := retryDiscovery_calls_le env st.calls
            simp only at hk1 hk2 hout
            exact Or.inr ⟨k, e, by omega, by omega, he, hr⟩
        · have t1 := retryDiscovery_calls_le env st.calls
          have t2 : (retryDiscovery env st.calls).2 ≤
              (innerLoop env (retryDiscovery env st.calls).1.length 0
                ⟨(retryDiscovery env st.calls).2, st.transactions, st.seen,
                  st.last_processed_ref, 0, st.no_new_count⟩).calls :=
            innerLoop_calls_le env (retryDiscovery env st.calls).1.length 0
              ⟨(retryDiscovery env st.calls).2, st.transactions, st.seen,
                st.last_processed_ref, 0, st.no_new_count⟩
          simp only at hk1
          exact Or.inr ⟨k, e, by omega, hk2, he, hr⟩
    · obtain rfl := Option.some.inj h
      exact Or.inl hx

lemma outerLoop_growth (env : Nat → List Elem) :
    ∀ (fuel : Nat) (st st' : ScraperSt),
      outerLoop env fuel st = some st' →
      (st'.transactions.length : Int) - st'.seen.length ≤
        (st.transactions.length : Int) - st.seen.length := by
  intro fuel
  induction fuel with
  | zero => intro st st' h; simp [outerLoop] at h
  | succ n ih =>
    intro st st' h
    simp only [outerLoop] at h
    split at h
    · split at h
      · obtain rfl := Option.some.inj h
        simp
      · exact le_trans (ih _ _ h)
          (innerLoop_growth env (retryDiscovery env st.calls).1.length 0
            ⟨(retryDiscovery env st.calls).2, st.transactions, st.seen,
              st.last_processed_ref, 0, st.no_new_count⟩)
    · obtain rfl := Option.some.inj h
      exact le_refl _

lemma outerLoop_spending (env : Nat → List Elem) :
    ∀ (fuel : Nat) (st st' : ScraperSt),
      outerLoop env fuel st = some st' →
      (∀ t ∈ st.transactions, t.isSpending = true) →
      ∀ t ∈ st'.transactions, t.isSpending = true := by
  intro fuel
  induction fuel with
  | zero => intro st st' h; simp [outerLoop] at h
  | succ n ih =>
    intro st st' h hinv
    simp only [outerLoop] at h
    split at h
    · split at h
      · obtain rfl := Option.some.inj h
        simpa using hinv
      · exact ih _ _ h
          (innerLoop_spending env (retryDiscovery env st.calls).1.length 0
            ⟨(retryDiscovery env st.calls).2, st.transactions, st.seen,
              st.last_processed_ref, 0, st.no_new_count⟩ hinv)
    · obtain rfl := Option.some.inj h
      exact hinv

/-- C2.  A transaction is spending exactly when its amount is negative,
and every transaction in a result of `scrape_all_transactions` is a
spending: the loop appends a parsed transaction only behind the
`txn.is_spending()` guard. -/
theorem c2_spending_only :
    (∀ t : Transaction, t.isSpending = true ↔ t.amount.toRat < 0) ∧
    (∀ (env : Nat → List Elem) (fuel : Nat) (res : List Transaction),
      scrape_all_transactions env fuel = some res →
      ∀ t ∈ res, t.isSpending = true) := by
  constructor
  · exact Transaction.isSpending_iff
  · intro env fuel res h t ht
    unfold scrape_all_transactions at h
    obtain ⟨st2, hst2, hres⟩ := Option.map_eq_some'.mp h
    subst hres
    exact outerLoop_spending env fuel _ _ hst2 (by simp) t ht

/-- Witness for C2: the transaction scraped from the sample element is a
spending. -/
theorem c2_spending_only_witness : sampleTxn.isSpending = true :=
  c2_spending_only.2 (fun _ => [sampleElem]) 5 [sampleTxn] rfl sampleTxn
    (by simp)

/-- C8.  Within a session the seen-set only grows (the initial seen-set
is a prefix of the final one); every reference it gains comes from an
element of a batch discovered during the loop; an element whose
reference is already seen changes neither the result nor the seen-set
nor the batch novelty count; and the number of retained transactions
never outgrows the number of stored references. -/
theorem c8_dedup_monotone :
    (∀ (env : Nat → List Elem) (fuel : Nat) (st st2 : ScraperSt),
      outerLoop env fuel st = some st2 → st.seen <+: st2.seen) ∧
    (∀ (env : Nat → List Elem) (fuel : Nat) (st st2 : ScraperSt)
      (x : String), outerLoop env fuel st = some st2 → x ∈ st2.seen →
      x ∈ st.seen ∨ ∃ k e, st.calls ≤ k ∧ k < st2.calls ∧ e ∈ env k ∧
        refOf e = some x) ∧
    (∀ (env : Nat → List Elem) (i : Nat) (st : InnerSt) (e : Elem)
      (ref : String), (env st.calls).get? i = some e → refOf e = some ref →
      ref ∈ st.seen →
      (innerLoop env 1 i st).transactions = st.transactions ∧
      (innerLoop env 1 i st).seen = st.seen ∧
      (innerLoop env 1 i st).newCount = st.newCount) ∧
    (∀ (env : Nat → List Elem) (fuel : Nat) (st st2 : ScraperSt),
      outerLoop env fuel st = some st2 →
      st2.transactions.length + st.seen.length ≤
        st.transactions.length + st2.seen.length) := by
  refine ⟨fun env fuel st st2 h => outerLoop_seen_grows env fuel st st2 h,
    fun env fuel st st2 x h hx => outerLoop_seen_src env fuel st st2 x h hx,
    fun env i st e ref h1 h2 h3 => innerLoop_dupe_step env i st e ref h1 h2 h3,
    fun env fuel st st2 h => ?_⟩
  have hg := outerLoop_growth env fuel st st2 h
  omega

/-- Witness for C8: processing an element whose reference is already in
the seen-set leaves result, seen-set and novelty count unchanged. -/
theorem c8_dedup_monotone_witness :
    (innerLoop (fun _ => [sampleElem]) 1 0
        ⟨0, [], ["REF1"], none, 0, 0⟩).transactions = [] ∧
    (innerLoop (fun _ => [sampleElem]) 1 0
        ⟨0, [], ["REF1"], none, 0, 0⟩).seen = ["REF1"] ∧
    (innerLoop (fun _ => [sampleElem]) 1 0
        ⟨0, [], ["REF1"], none, 0, 0⟩).newCount = 0 :=
  c8_dedup_monotone.2.2.1 (fun _ => [sampleElem]) 0
    ⟨0, [], ["REF1"], none, 0, 0⟩ sampleElem "REF1" rfl rfl (by simp)

/-- C10.  An element whose detail view yields no reference number
contributes nothing: the loop state after processing it is unchanged but
for the discovery-call counter (nothing appended, seen-set and
last-processed reference untouched), and consequently a scrape never
retains more transactions than it stored references. -/
theorem c10_no_reference_no_contribution :
    (∀ (env : Nat → List Elem) (i : Nat) (st : InnerSt) (e : Elem),
      (env st.calls).get? i = some e → refOf e = none →
      innerLoop env 1 i st = { st with calls := st.calls + 1 }) ∧
    (∀ (env : Nat → List Elem) (fuel : Nat) (st2 : ScraperSt),
      outerLoop env fuel ⟨0, [], [], none, 0⟩ = some st2 →
      st2.transactions.length ≤ st2.seen.length) := by
  refine ⟨fun env i st e h1 h2 => innerLoop_noref_step env i st e h1 h2,
    fun env fuel st2 h => ?_⟩
  have hg := outerLoop_growth env fuel _ _ h
  simp at hg
  omega

/-- Witness for C10: an element without a reference leaves the state
unchanged except for the call counter. -/
theorem c10_no_reference_no_contribution_witness :
    innerLoop (fun _ => [sampleNoRef]) 1 0 ⟨0, [], [], none, 0, 0⟩ =
      ⟨1, [], [], none, 0, 0⟩ :=
  c10_no_reference_no_contribution.1 (fun _ => [sampleNoRef]) 0
    ⟨0, [], [], none, 0, 0⟩ sampleNoRef rfl rfl

/-- C9 counterexample.  Two transactions equal on
`(date, description, amount, currency)` but with different `category`
do not compare equal: the dataclass-generated `__eq__` compares all six
fields, so the four-field tuple is not the equality key. -/
theorem c9_counterexample :
    ((⟨"SUN, 5 OCTOBER", "Coffee", ⟨true, 475, 2⟩, "AED", none, none⟩ :
        Transaction).date =
      (⟨"SUN, 5 OCTOBER", "Coffee", ⟨true, 475, 2⟩, "AED", some "Food", none⟩ :
        Transaction).date ∧
     (⟨"SUN, 5 OCTOBER", "Coffee", ⟨true, 475, 2⟩, "AED", none, none⟩ :
        Transaction).description =
      (⟨"SUN, 5 OCTOBER", "Coffee", ⟨true, 475, 2⟩, "AED", some "Food", none⟩ :
        Transaction).description ∧
     (⟨"SUN, 5 OCTOBER", "Coffee", ⟨true, 475, 2⟩, "AED", none, none⟩ :
        Transaction).amount.valEq
      (⟨"SUN, 5 OCTOBER", "Coffee", ⟨true, 475, 2⟩, "AED", some "Food", none⟩ :
        Transaction).amount ∧
     (⟨"SUN, 5 OCTOBER", "Coffee", ⟨true, 475, 2⟩, "AED", none, none⟩ :
        Transaction).currency =
      (⟨"SUN, 5 OCTOBER", "Coffee", ⟨true, 475, 2⟩, "AED", some "Food", none⟩ :
        Transaction).currency) ∧
    ¬ (⟨"SUN, 5 OCTOBER", "Coffee", ⟨true, 475, 2⟩, "AED", none, none⟩ :
        Transaction).pyEq
      ⟨"SUN, 5 OCTOBER", "Coffee", ⟨true, 475, 2⟩, "AED", some "Food", none⟩ := by
  decide

/-- C9 amended.  The hash key is `(date, description, str(amount),
currency)` — determined by those four data — while the generated
equality compares all six fields (amounts numerically): transactions
equal on the four fields need not compare equal, and numerically equal
amounts with different textual representations (`12.5` vs `12.50`)
compare equal yet hash differently. -/
theorem c9_identity_amended :
    (∀ a b : Transaction, a.date = b.date → a.description = b.description →
      decStr a.amount = decStr b.amount → a.currency = b.currency →
      a.hashKey = b.hashKey) ∧
    (∀ a b : Transaction, a.pyEq b →
      (a.date = b.date ∧ a.description = b.description ∧
        a.amount.toRat = b.amount.toRat ∧ a.currency = b.currency) ∧
      a.category = b.category ∧ a.foreign_amount = b.foreign_amount) ∧
    ((⟨"D", "Cafe", ⟨false, 125, 1⟩, "AED", none, none⟩ : Transaction).pyEq
        ⟨"D", "Cafe", ⟨false, 1250, 2⟩, "AED", none, none⟩ ∧
      (⟨"D", "Cafe", ⟨false, 125, 1⟩, "AED", none, none⟩ :
          Transaction).hashKey ≠
        (⟨"D", "Cafe", ⟨false, 1250, 2⟩, "AED", none, none⟩ :
          Transaction).hashKey) := by
  refine ⟨?_, ?_, by decide⟩
  · intro a b h1 h2 h3 h4
    simp [Transaction.hashKey, h1, h2, h3, h4]
  · intro a b h
    obtain ⟨h1, h2, h3, h4, h5, h6⟩ := h
    exact ⟨⟨h1, h2, (PyDec.valEq_iff_toRat _ _).mp h3, h4⟩, h5, h6⟩

/-- Witness for C9's amended statement: hash keys agree for transactions
differing only in category. -/
theorem c9_identity_amended_witness :
    (⟨"D", "X", ⟨true, 1, 0⟩, "AED", none, none⟩ : Transaction).hashKey =
      (⟨"D", "X", ⟨true, 1, 0⟩, "AED", some "c", none⟩ :
        Transaction).hashKey :=
  c9_identity_amended.1 _ _ rfl rfl rfl rfl

/-! ### One pass of the scraping loop over a constant batch -/

lemma lastRefOf_cons_of_ne (e : Elem) (l : List Elem) (cur : Option String)
    (h : l ≠ []) : lastRefOf (e :: l) cur = lastRefOf l cur := by
  cases l with
  | nil => exact absurd rfl h
  | cons e2 l2 => simp [lastRefOf, List.getLast?_cons_cons]

lemma lastRefOf_cons_noref (e : Elem) (l : List Elem) (cur : Option String)
    (h : refOf e = none) : lastRefOf (e :: l) cur = lastRefOf l cur := by
  cases l with
  | nil => simp [lastRefOf, h]
  | cons e2 l2 => simp [lastRefOf, List.getLast?_cons_cons]

lemma newRefs_closure :
    ∀ (L : List Elem) (S : List String) (e : Elem) (r : String),
      e ∈ L → refOf e = some r → r ∈ S ++ newRefs L S := by
  intro L
  induction L with
  | nil => intro S e r he; intro _; simp at he
  | cons e0 rest ih =>
    intro S e r he hr
    rcases List.mem_cons.mp he with rfl | he2
    · by_cases hmem : r ∈ S
      · simp [newRefs, hr, hmem]
      · simp [newRefs, hr, hmem]
    · cases hr0 : refOf e0 with
      | some r0 =>
        by_cases hmem : r0 ∈ S
        · have h2 := ih S e r he2 hr
          simpa [newRefs, hr0, hmem] using h2
        · have h2 := ih (S ++ [r0]) e r he2 hr
          simp only [newRefs, hr0, if_neg hmem]
          simp only [List.mem_append, List.mem_cons, List.mem_singleton] at h2 ⊢
          tauto
      | none =>
        have h2 := ih S e r he2 hr
        simpa [newRefs, hr0] using h2

lemma innerLoop_pass1 (batch : List Elem) :
    ∀ (rest : List Elem) (i : Nat) (st : InnerSt),
      batch.drop i = rest → i + rest.length = batch.length →
      st.last_processed_ref = none →
      innerLoop (fun _ => batch) rest.length i st =
        ⟨st.calls + rest.length,
         st.transactions ++ novelScan rest st.seen,
         st.seen ++ newRefs rest st.seen,
         lastRefOf rest none,
         st.newCount + (novelScan rest st.seen).length,
         st.no_new_count⟩ := by
  intro rest
  induction rest with
  | nil =>
    intro i st hdrop hlen hlast
    cases st
    simp_all [innerLoop, novelScan, newRefs, lastRefOf]
  | cons e rest2 ih =>
    intro i st hdrop hlen hlast
    have hlt : i < batch.length := by
      by_contra hge
      rw [List.drop_eq_nil_of_le (le_of_not_lt hge)] at hdrop
      simp at hdrop
    have hdrop2 := List.drop_eq_getElem_cons hlt
    rw [hdrop] at hdrop2
    injection hdrop2 with hget hdrop3
    have hgete : batch.get ⟨i, hlt⟩ = e := by
      rw [List.get_eq_getElem]; exact hget.symm
    show innerLoop (fun _ => batch) (rest2.length + 1) i st = _
    simp only [innerLoop]
    rw [dif_pos hlt]
    rw [hgete]
    cases hext : extract_transaction_details e with
    | none =>
      dsimp only
      rw [ih (i + 1) _ hdrop3.symm (by simp only [List.length_cons] at hlen; omega)
        (by simpa using hlast)]
      have hrefe : refOf e = none := by simp [refOf, hext]
      simp [novelScan, newRefs, hext, hrefe,
        lastRefOf_cons_noref e rest2 none hrefe]
      omega
    | some td =>
      cases htd : td.ref_number with
      | none =>
        dsimp only
        rw [ih (i + 1) _ hdrop3.symm (by simp only [List.length_cons] at hlen; omega)
          (by simpa using hlast)]
        have hrefe : refOf e = none := by simp [refOf, hext, htd]
        simp [novelScan, newRefs, hext, htd, hrefe,
          lastRefOf_cons_noref e rest2 none hrefe]
        omega
      | some ref =>
        have hrefe : refOf e = some ref := by simp [refOf, hext, htd]
        dsimp only
        simp only [htd]
        rw [if_neg (by simp [hlast])]
        by_cases hr2 : rest2 = []
        · subst hr2
          have hil : i = batch.length - 1 := by simp at hlen; omega
          rw [if_pos hil]
          by_cases hmem : ref ∈ st.seen
          · rw [if_pos (show ref ∈ st.seen from hmem)]
            simp [innerLoop, novelScan, newRefs, lastRefOf, hext, htd, hrefe,
              hmem]
          · rw [if_neg (show ¬ref ∈ st.seen from hmem)]
            cases hp : scraper_parse_transaction td with
            | none =>
              simp [innerLoop, novelScan, newRefs, lastRefOf, hext, htd,
                hrefe, hmem, hp]
            | some txn =>
              by_cases hsp : txn.isSpending
              · simp [innerLoop, novelScan, newRefs, lastRefOf, hext, htd,
                  hrefe, hmem, hp, hsp]
              · simp [innerLoop, novelScan, newRefs, lastRefOf, hext, htd,
                  hrefe, hmem, hp, hsp]
        · have hil : i ≠ batch.length - 1 := by
            have := List.length_pos.mpr hr2
            simp at hlen
            omega
          rw [if_neg hil]
          by_cases hmem : ref ∈ st.seen
          · rw [if_pos (show ref ∈ st.seen from hmem)]
            rw [ih (i + 1) _ hdrop3.symm (by simp only [List.length_cons] at hlen; omega)
              (by simpa using hlast)]
            simp [novelScan, newRefs, hext, htd, hrefe, hmem,
              lastRefOf_cons_of_ne e rest2 none hr2]
            omega
          · rw [if_neg (show ¬ref ∈ st.seen from hmem)]
            cases hp : scraper_parse_transaction td with
            | none =>
              dsimp only
              rw [ih (i + 1) _ hdrop3.symm (by simp only [List.length_cons] at hlen; omega)
                (by simpa using hlast)]
              simp [novelScan, newRefs, hext, htd, hrefe, hmem, hp,
                lastRefOf_cons_of_ne e rest2 none hr2]
              omega
            | some txn =>
              dsimp only
              by_cases hsp : txn.isSpending
              · rw [if_pos hsp]
                rw [ih (i + 1) _ hdrop3.symm (by simp only [List.length_cons] at hlen; omega)
                  (by simpa using hlast)]
                simp [novelScan, newRefs, hext, htd, hrefe, hmem, hp, hsp,
                  lastRefOf_cons_of_ne e rest2 none hr2]
                omega
              · rw [if_neg hsp]
                rw [ih (i + 1) _ hdrop3.symm (by simp only [List.length_cons] at hlen; omega)
                  (by simpa using hlast)]
                simp [novelScan, newRefs, hext, htd, hrefe, hmem, hp, hsp,
                  lastRefOf_cons_of_ne e rest2 none hr2]
                omega

lemma innerLoop_pass2_force (batch : List Elem) :
    ∀ (rest : List Elem) (i : Nat) (st : InnerSt) (r : String),
      batch.drop i = rest → i + rest.length = batch.length →
      (∀ e q, e ∈ rest → refOf e = some q → q ∈ st.seen) →
      (∃ e0, rest.getLast? = some e0 ∧ refOf e0 = some r) →
      st.last_processed_ref = some r →
      innerLoop (fun _ => batch) rest.length i st =
        { st with calls := st.calls + rest.length, no_new_count := 3 } := by
  intro rest
  induction rest with
  | nil =>
    intro i st r _ _ _ hex _
    obtain ⟨e0, h0, _⟩ := hex
    simp at h0
  | cons e rest2 ih =>
    intro i st r hdrop hlen hseen hex hlast
    have hlt : i < batch.length := by
      by_contra hge
      rw [List.drop_eq_nil_of_le (le_of_not_lt hge)] at hdrop
      simp at hdrop
    have hdrop2 := List.drop_eq_getElem_cons hlt
    rw [hdrop] at hdrop2
    injection hdrop2 with hget hdrop3
    have hgete : batch.get ⟨i, hlt⟩ = e := by
      rw [List.get_eq_getElem]; exact hget.symm
    show innerLoop (fun _ => batch) (rest2.length + 1) i st = _
    simp only [innerLoop]
    rw [dif_pos hlt, hgete]
    cases rest2 with
    | nil =>
      obtain ⟨e0, h0, hre0⟩ := hex
      have he0 : e = e0 := by simpa using h0
      subst he0
      cases hext : extract_transaction_details e with
      | none => simp [refOf, hext] at hre0
      | some td =>
        have htd : td.ref_number = some r := by simpa [refOf, hext] using hre0
        dsimp only
        simp only [htd]
        rw [if_pos ⟨by simp only [List.length_cons, List.length_nil] at hlen; omega,
          by simpa using hlast⟩]
        simp
    | cons e2 rest3 =>
      have hil : i ≠ batch.length - 1 := by
        simp only [List.length_cons] at hlen
        omega
      have hex2 : ∃ e0, (e2 :: rest3).getLast? = some e0 ∧ refOf e0 = some r := by
        obtain ⟨e0, h0, hre0⟩ := hex
        exact ⟨e0, by simpa [List.getLast?_cons_cons] using h0, hre0⟩
      cases hext : extract_transaction_details e with
      | none =>
        dsimp only
        rw [ih (i + 1) { st with calls := st.calls + 1 } r hdrop3.symm
          (by simp only [List.length_cons] at hlen ⊢; omega)
          (fun e' q he' hq => hseen e' q (by simp [he']) hq)
          hex2 (by simpa using hlast)]
        simp only [List.length_cons, InnerSt.mk.injEq, and_true, true_and]
        omega
      | some td =>
        cases htd2 : td.ref_number with
        | none =>
          dsimp only
          simp only [htd2]
          rw [ih (i + 1) { st with calls := st.calls + 1 } r hdrop3.symm
            (by simp only [List.length_cons] at hlen ⊢; omega)
            (fun e' q he' hq => hseen e' q (by simp [he']) hq)
            hex2 (by simpa using hlast)]
          simp only [List.length_cons, InnerSt.mk.injEq, and_true, true_and]
          omega
        | some q =>
          dsimp only
          simp only [htd2]
          have hq : q ∈ st.seen :=
            hseen e q (by simp) (by simp [refOf, hext, htd2])
          rw [if_neg (by rintro ⟨h1, -⟩; exact hil h1)]
          rw [if_pos (show q ∈ st.seen from hq)]
          rw [if_neg hil]
          rw [ih (i + 1) { st with calls := st.calls + 1 } r hdrop3.symm
            (by simp only [List.length_cons] at hlen ⊢; omega)
            (fun e' q' he' hq' => hseen e' q' (by simp [he']) hq')
            hex2 (by simpa using hlast)]
          simp only [List.length_cons, InnerSt.mk.injEq, and_true, true_and]
          omega

lemma innerLoop_pass2_quiet (batch : List Elem) :
    ∀ (rest : List Elem) (i : Nat) (st : InnerSt),
      batch.drop i = rest → i + rest.length = batch.length →
      (∀ e q, e ∈ rest → refOf e = some q → q ∈ st.seen) →
      st.last_processed_ref = none →
      (∀ e0, rest.getLast? = some e0 → refOf e0 = none) →
      innerLoop (fun _ => batch) rest.length i st =
        { st with calls := st.calls + rest.length } := by
  intro rest
  induction rest with
  | nil =>
    intro i st _ _ _ _ _
    cases st
    simp [innerLoop]
  | cons e rest2 ih =>
    intro i st hdrop hlen hseen hlast hgl
    have hlt : i < batch.length := by
      by_contra hge
      rw [List.drop_eq_nil_of_le (le_of_not_lt hge)] at hdrop
      simp at hdrop
    have hdrop2 := List.drop_eq_getElem_cons hlt
    rw [hdrop] at hdrop2
    injection hdrop2 with hget hdrop3
    have hgete : batch.get ⟨i, hlt⟩ = e := by
      rw [List.get_eq_getElem]; exact hget.symm
    show innerLoop (fun _ => batch) (rest2.length + 1) i st = _
    simp only [innerLoop]
    rw [dif_pos hlt, hgete]
    cases rest2 with
    | nil =>
      have hre : refOf e = none := hgl e (by simp)
      cases hext : extract_transaction_details e with
      | none =>
        dsimp only
        simp [innerLoop]
      | some td =>
        have htd : td.ref_number = none := by simpa [refOf, hext] using hre
        dsimp only
        simp only [htd]
        simp [innerLoop]
    | cons e2 rest3 =>
      have hil : i ≠ batch.length - 1 := by
        simp only [List.length_cons] at hlen
        omega
      have hgl2 : ∀ e0, (e2 :: rest3).getLast? = some e0 → refOf e0 = none :=
        fun e0 h0 => hgl e0 (by simpa [List.getLast?_cons_cons] using h0)
      cases hext : extract_transaction_details e with
      | none =>
        dsimp only
        rw [ih (i + 1) { st with calls := st.calls + 1 } hdrop3.symm
          (by simp only [List.length_cons] at hlen ⊢; omega)
          (fun e' q he' hq => hseen e' q (by simp [he']) hq)
          (by simpa using hlast) hgl2]
        simp only [List.length_cons, InnerSt.mk.injEq, and_true, true_and]
        omega
      | some td =>
        cases htd2 : td.ref_number with
        | none =>
          dsimp only
          simp only [htd2]
          rw [ih (i + 1) { st with calls := st.calls + 1 } hdrop3.symm
            (by simp only [List.length_cons] at hlen ⊢; omega)
            (fun e' q he' hq => hseen e' q (by simp [he']) hq)
            (by simpa using hlast) hgl2]
          simp only [List.length_cons, InnerSt.mk.injEq, and_true, true_and]
          omega
        | some q =>
          dsimp only
          simp only [htd2]
          have hq : q ∈ st.seen :=
            hseen e q (by simp) (by simp [refOf, hext, htd2])
          rw [if_neg (by simp [hlast])]
          rw [if_pos (show q ∈ st.seen from hq)]
          rw [if_neg hil]
          rw [ih (i + 1) { st with calls := st.calls + 1 } hdrop3.symm
            (by simp only [List.length_cons] at hlen ⊢; omega)
            (fun e' q' he' hq' => hseen e' q' (by simp [he']) hq')
            (by simpa using hlast) hgl2]
          simp only [List.length_cons, InnerSt.mk.injEq, and_true, true_and]
          omega

/-- C1.  Stuck-scroll termination: when every discovery pass returns the
same fixed non-empty batch, the scrape terminates well inside its
`max_no_new = 3` threshold and returns exactly the novel spending
transactions of that one batch.  Fuel `5` bounds the `while` loop at
four batch iterations plus the final loop-condition check, which is the
worst case: one productive pass and three consecutive zero-novelty
passes; when the batch's last element yields a reference, the overlap
guard fires on the second pass instead. -/
theorem c1_stuck_scroll (batch : List Elem) (hb : batch ≠ []) :
    scrape_all_transactions (fun _ => batch) 5 =
      some (novelSpendingOf batch) := by
  have hretry : ∀ c, retryDiscovery (fun _ => batch) c = (batch, c + 1) :=
    fun c => by simp [retryDiscovery, hb]
  have hseen1 : ∀ e q, e ∈ batch → refOf e = some q →
      q ∈ newRefs batch [] :=
    fun e q he hq => by simpa using newRefs_closure batch [] e q he hq
  have hpass1 : innerLoop (fun _ => batch) batch.length 0 ⟨1, [], [], none, 0, 0⟩ =
      ⟨1 + batch.length, novelScan batch [], newRefs batch [],
        lastRefOf batch none, (novelScan batch []).length, 0⟩ := by
    have h := innerLoop_pass1 batch batch 0 ⟨1, [], [], none, 0, 0⟩
      (List.drop_zero batch) (by simp) rfl
    simpa using h
  have hstop : ∀ (f : Nat) (st : ScraperSt), ¬st.no_new_count < 3 →
      outerLoop (fun _ => batch) (f + 1) st = some st := by
    intro f st h
    simp only [outerLoop]
    rw [if_neg h]
  have step1 : ∀ f : Nat, outerLoop (fun _ => batch) (f + 1) ⟨0, [], [], none, 0⟩ =
      outerLoop (fun _ => batch) f
        ⟨1 + batch.length, novelScan batch [], newRefs batch [],
          lastRefOf batch none,
          if (novelScan batch []).length = 0 then 1 else 0⟩ := by
    intro f
    simp only [outerLoop]
    rw [if_pos (by norm_num)]
    rw [hretry 0]
    dsimp only
    rw [if_neg hb]
    simp only [Nat.zero_add]
    rw [hpass1]
  unfold scrape_all_transactions
  cases hL : lastRefOf batch none with
  | some r =>
    have hex : ∃ e0, batch.getLast? = some e0 ∧ refOf e0 = some r := by
      unfold lastRefOf at hL
      cases hgl : batch.getLast? with
      | none => rw [hgl] at hL; simp at hL
      | some e0 =>
        rw [hgl] at hL
        dsimp only at hL
        cases hre : refOf e0 with
        | none => rw [hre] at hL; simp at hL
        | some r2 =>
          rw [hre] at hL
          simp at hL
          exact ⟨e0, rfl, by rw [hre, hL]⟩
    have step2A : ∀ (f c m : Nat), m < 3 →
        outerLoop (fun _ => batch) (f + 1)
          ⟨c, novelScan batch [], newRefs batch [], some r, m⟩ =
        outerLoop (fun _ => batch) f
          ⟨c + 1 + batch.length, novelScan batch [], newRefs batch [],
            some r, 4⟩ := by
      intro f c m hm
      simp only [outerLoop]
      rw [if_pos hm]
      rw [hretry c]
      dsimp only
      rw [if_neg hb]
      rw [innerLoop_pass2_force batch batch 0
        ⟨c + 1, novelScan batch [], newRefs batch [], some r, 0, m⟩ r
        (List.drop_zero batch) (by simp)
        (fun e q he hq => hseen1 e q he hq) hex rfl]
      norm_num
    rw [step1 4]
    rw [hL]
    rw [step2A 3 (1 + batch.length) _ (by split <;> norm_num)]
    rw [hstop 2 _ (by norm_num)]
    rfl
  | none =>
    have hquiet : ∀ e0, batch.getLast? = some e0 → refOf e0 = none := by
      intro e0 h0
      unfold lastRefOf at hL
      rw [h0] at hL
      dsimp only at hL
      cases hre : refOf e0 with
      | none => rfl
      | some r2 => rw [hre] at hL; simp at hL
    have stepB : ∀ (f c m : Nat), m < 3 →
        outerLoop (fun _ => batch) (f + 1)
          ⟨c, novelScan batch [], newRefs batch [], none, m⟩ =
        outerLoop (fun _ => batch) f
          ⟨c + 1 + batch.length, novelScan batch [], newRefs batch [],
            none, m + 1⟩ := by
      intro f c m hm
      simp only [outerLoop]
      rw [if_pos hm]
      rw [hretry c]
      dsimp only
      rw [if_neg hb]
      rw [innerLoop_pass2_quiet batch batch 0
        ⟨c + 1, novelScan batch [], newRefs batch [], none, 0, m⟩
        (List.drop_zero batch) (by simp)
        (fun e q he hq => hseen1 e q he hq) rfl hquiet]
      norm_num
    rw [step1 4]
    rw [hL]
    by_cases hT : (novelScan batch []).length = 0
    · rw [if_pos hT]
      rw [stepB 3 (1 + batch.length) 1 (by norm_num)]
      rw [stepB 2 (1 + batch.length + 1 + batch.length) 2 (by norm_num)]
      rw [hstop 1 _ (by norm_num)]
      rfl
    · rw [if_neg hT]
      rw [stepB 3 (1 + batch.length) 0 (by norm_num)]
      rw [stepB 2 (1 + batch.length + 1 + batch.length) 1 (by norm_num)]
      rw [stepB 1 (1 + batch.length + 1 + batch.length + 1 + batch.length) 2
        (by norm_num)]
      rw [hstop 0 _ (by norm_num)]
      rfl

/-- Witness for C1 on a one-element batch. -/
theorem c1_stuck_scroll_witness :
    scrape_all_transactions (fun _ => [sampleElem]) 5 =
      some (novelSpendingOf [sampleElem]) :=
  c1_stuck_scroll [sampleElem] (by decide)

end Wio
